import Mathlib

/-!
Verification of the fundamentals-screening pipeline of the marketscreener
repository (src/config.py, src/screener.py, src/technicals.py).

Modelling conventions, fixed once for the whole development:

* Python floats are modelled as rationals.
* An `Optional[float]` value is an `Option ℚ`; Python truthiness of such a
  value (`if x:`) is `truthyQ`: false exactly on `None` and `0`.
* Network and provider state is passed in explicitly: the outcome of a
  provider call (after its internal retries) is a function argument, so a
  fetch that raises after retry exhaustion is an `Except.error` value and a
  fetch that succeeds is `Except.ok`.
* A pandas balance-sheet frame is `Option BalanceSheet`; `none` covers both
  `sheet is None` and `sheet.empty`.  Each row of the sheet is an
  `Option (List ℚ)`: `none` when the row label is absent, otherwise the
  series of values with the most recent reporting column first.
* The thread pools only affect completion order, which the code never relies
  on for its results (the final list is explicitly sorted); the model runs
  batches in dispatch order.
-/

namespace MarketScreener

/-- Screening constraint constants from src/config.py. -/
def PRICE_MIN : ℚ := 10

/-- Screening constraint constant from src/config.py. -/
def PRICE_MAX : ℚ := 100

/-- Screening constraint constant from src/config.py. -/
def PE_MAX : ℚ := 15

/-- Screening constraint constant from src/config.py. -/
def PB_MAX : ℚ := 2

/-- Screening constraint constant from src/config.py. -/
def CURRENT_RATIO_MIN : ℚ := 3 / 2

/-- Screening constraint constant from src/config.py. -/
def DEBT_TO_ASSETS_MAX : ℚ := 1

/-- Batch size constant from src/screener.py. -/
def BATCH_SIZE : Nat := 25

/-- Python truthiness of an optional float: `None` and `0.0` are falsy. -/
def truthyQ : Option ℚ → Bool
  | none => false
  | some x => x != 0

/-- The ScreenedStock dataclass of src/screener.py: one fundamentals
snapshot for a symbol. -/
structure ScreenedStock where
  ticker : String
  name : Option String
  sector : Option String
  price : Option ℚ
  trailing_pe : Option ℚ
  price_to_book : Option ℚ
  current_ratio : Option ℚ
  debt_to_assets : Option ℚ
  market_cap : Option ℚ
  beta : Option ℚ
deriving DecidableEq

/-- Evaluation of one guard of the filter: the field must be present and the
pass condition must hold of its value; an absent field fails the guard.  This
is the shape of each `if field is None or not (...): return False` line of
`_passes_filters` in src/screener.py. -/
def checkOpt (v : Option ℚ) (p : ℚ → Prop) [DecidablePred p] : Bool :=
  match v with
  | none => false
  | some x => decide (p x)

/-- The `_passes_filters` function of src/screener.py.  The guards appear in
source order; `&&` short-circuits exactly like the chain of early returns.
The DEBUG_MODE branch only logs and does not affect the result, so it is not
modelled. -/
def passes_filters (stock : ScreenedStock) : Bool :=
  checkOpt stock.trailing_pe (fun pe => 0 < pe ∧ pe ≤ PE_MAX) &&
  checkOpt stock.price_to_book (fun pb => 0 < pb ∧ pb ≤ PB_MAX) &&
  checkOpt stock.current_ratio (fun cr => ¬ (cr < CURRENT_RATIO_MIN)) &&
  checkOpt stock.debt_to_assets (fun da => ¬ (da > DEBT_TO_ASSETS_MAX)) &&
  checkOpt stock.price (fun p => PRICE_MIN ≤ p ∧ p ≤ PRICE_MAX)

/-- The loop body of `_split_batches` in src/screener.py: `batch` is the
partial batch accumulated so far, `batches` the batches already flushed.  A
batch is flushed as soon as it reaches `size` elements; a non-empty leftover
batch is flushed at the end. -/
def split_batches_go (size : Nat) :
    List String → List String → List (List String) → List (List String)
  | [], batch, batches => if batch.isEmpty then batches else batches ++ [batch]
  | symbol :: rest, batch, batches =>
    if size ≤ (batch ++ [symbol]).length then
      split_batches_go size rest [] (batches ++ [batch ++ [symbol]])
    else
      split_batches_go size rest (batch ++ [symbol]) batches

/-- Function `_split_batches` of src/screener.py. -/
def split_batches (items : List String) (size : Nat) : List (List String) :=
  split_batches_go size items [] []

theorem split_batches_go_append (size : Nat) :
    ∀ (rest batch : List String) (batches : List (List String)),
      split_batches_go size rest batch batches =
        batches ++ split_batches_go size rest batch [] := by
  intro rest
  induction rest with
  | nil =>
    intro batch batches
    cases h : batch.isEmpty <;> simp [split_batches_go, h]
  | cons s rest ih =>
    intro batch batches
    simp only [split_batches_go]
    by_cases h : size ≤ (batch ++ [s]).length
    · rw [if_pos h, if_pos h, ih [] (batches ++ [batch ++ [s]]),
        ih [] ([] ++ [batch ++ [s]])]
      simp
    · rw [if_neg h, if_neg h]
      exact ih _ _

theorem split_batches_go_flatten (size : Nat) :
    ∀ (rest batch : List String),
      (split_batches_go size rest batch []).flatten = batch ++ rest := by
  intro rest
  induction rest with
  | nil =>
    intro batch
    cases h : batch.isEmpty
    · simp [split_batches_go, h]
    · have hb : batch = [] := by simpa using h
      simp [split_batches_go, h, hb]
  | cons s rest ih =>
    intro batch
    simp only [split_batches_go]
    by_cases h : size ≤ (batch ++ [s]).length
    · rw [if_pos h, split_batches_go_append size rest [] ([] ++ [batch ++ [s]])]
      simp [ih]
    · rw [if_neg h, ih]
      simp

theorem split_batches_go_length :
    ∀ (rest batch : List String), batch.length < 25 →
      (split_batches_go 25 rest batch []).length =
        (batch.length + rest.length + 24) / 25 := by
  intro rest
  induction rest with
  | nil =>
    intro batch hb
    cases h : batch.isEmpty
    · have hne : batch ≠ [] := by simpa using h
      have h1 : 0 < batch.length := List.length_pos.mpr hne
      simp only [split_batches_go, h, Bool.false_eq_true, if_false,
        List.nil_append, List.length_cons, List.length_nil]
      omega
    · have hb0 : batch = [] := by simpa using h
      subst hb0
      simp [split_batches_go]
  | cons s rest ih =>
    intro batch hb
    simp only [split_batches_go]
    by_cases h : 25 ≤ (batch ++ [s]).length
    · rw [if_pos h, split_batches_go_append 25 rest [] ([] ++ [batch ++ [s]])]
      have hlen : batch.length = 24 := by
        simp only [List.length_append, List.length_cons, List.length_nil] at h
        omega
      have h2 := ih [] (by norm_num)
      simp only [List.length_nil, Nat.zero_add] at h2
      simp only [List.nil_append, List.length_append, h2, List.length_cons,
        List.length_nil, hlen]
      omega
    · rw [if_neg h]
      have hlt : (batch ++ [s]).length < 25 := Nat.lt_of_not_le h
      rw [ih (batch ++ [s]) hlt]
      have harith : (batch ++ [s]).length + rest.length + 24 =
          batch.length + (s :: rest).length + 24 := by
        simp only [List.length_append, List.length_cons, List.length_nil]
        omega
      rw [harith]

theorem split_batches_go_sizes :
    ∀ (rest batch : List String), batch.length < 25 →
      ∀ b ∈ (split_batches_go 25 rest batch []).dropLast, b.length = 25 := by
  intro rest
  induction rest with
  | nil =>
    intro batch hb b hbmem
    cases h : batch.isEmpty <;> simp [split_batches_go, h] at hbmem
  | cons s rest ih =>
    intro batch hb b hbmem
    simp only [split_batches_go] at hbmem
    by_cases h : 25 ≤ (batch ++ [s]).length
    · rw [if_pos h, split_batches_go_append 25 rest [] ([] ++ [batch ++ [s]])] at hbmem
      have hlen : (batch ++ [s]).length = 25 := by
        simp only [List.length_append, List.length_singleton]
        simp only [List.length_append, List.length_singleton] at h
        omega
      by_cases hnil : split_batches_go 25 rest [] [] = []
      · rw [hnil] at hbmem
        simp at hbmem
      · obtain ⟨c, cs, heq⟩ := List.exists_cons_of_ne_nil hnil
        rw [heq] at hbmem
        simp only [List.nil_append, List.singleton_append,
          List.dropLast_cons₂, List.mem_cons] at hbmem
        rcases hbmem with rfl | hbmem
        · exact hlen
        · exact ih [] (by norm_num) b (by rw [heq]; exact hbmem)
    · rw [if_neg h] at hbmem
      exact ih (batch ++ [s]) (Nat.lt_of_not_le h) b hbmem

/-- C7: partitioning a symbol list into batches of size 25 concatenates back
to the input in order, produces ceil(n/25) batches, every batch except
possibly the last has exactly 25 symbols, and 60 symbols give 3 batches of
sizes 25, 25, 10. -/
theorem split_batches_spec (l : List String) :
    (split_batches l 25).flatten = l ∧
    (split_batches l 25).length = (l.length + 24) / 25 ∧
    (∀ b ∈ (split_batches l 25).dropLast, b.length = 25) ∧
    (split_batches (List.replicate 60 "A") 25).map List.length = [25, 25, 10] := by
  refine ⟨?_, ?_, ?_, ?_⟩
  · simpa using split_batches_go_flatten 25 l []
  · simpa using split_batches_go_length l [] (by norm_num)
  · exact fun b hb => split_batches_go_sizes l [] (by norm_num) b hb
  · rfl

theorem checkOpt_eq_true_iff (v : Option ℚ) (p : ℚ → Prop) [DecidablePred p] :
    checkOpt v p = true ↔ ∃ x, v = some x ∧ p x := by
  cases v <;> simp [checkOpt]

/-- C1: the Filter Evaluator accepts a ScreenedStock iff all five threshold
conditions hold of present fields (0 < trailing P/E ≤ 15, 0 < price-to-book
≤ 2, current ratio ≥ 1.5, debt-to-assets ≤ 1, 10 ≤ price ≤ 100); any absent
field means rejection, never a neutral pass. -/
theorem passes_filters_spec (s : ScreenedStock) :
    passes_filters s = true ↔
      (∃ pe, s.trailing_pe = some pe ∧ 0 < pe ∧ pe ≤ 15) ∧
      (∃ pb, s.price_to_book = some pb ∧ 0 < pb ∧ pb ≤ 2) ∧
      (∃ cr, s.current_ratio = some cr ∧ (3 / 2 : ℚ) ≤ cr) ∧
      (∃ da, s.debt_to_assets = some da ∧ da ≤ 1) ∧
      (∃ p, s.price = some p ∧ 10 ≤ p ∧ p ≤ 100) := by
  simp only [passes_filters, Bool.and_eq_true, checkOpt_eq_true_iff,
    PE_MAX, PB_MAX, CURRENT_RATIO_MIN, DEBT_TO_ASSETS_MAX, PRICE_MIN,
    PRICE_MAX, not_lt, gt_iff_lt, and_assoc]

/-- Function `_fetch_batch` of src/screener.py: iterate the batch sequentially,
appending each passing stock, catching and skipping any per-symbol
exception.  The argument `fetch` is the outcome that `_fetch_single`
delivers for a symbol after its internal tenacity retries: `Except.error`
when the last attempt still raised, `Except.ok (some stock)` when the
symbol passed the filters, `Except.ok none` when it was fetched but
rejected. -/
def fetch_batch (fetch : String → Except String (Option ScreenedStock)) :
    List String → List ScreenedStock
  | [] => []
  | symbol :: rest =>
    match fetch symbol with
    | .ok (some stock) => stock :: fetch_batch fetch rest
    | .ok none => fetch_batch fetch rest
    | .error _ => fetch_batch fetch rest

/-- The surviving result of one symbol: its accepted stock when the fetch
neither raised nor was rejected, and nothing otherwise. -/
def fetch_outcome (fetch : String → Except String (Option ScreenedStock))
    (symbol : String) : Option ScreenedStock :=
  match fetch symbol with
  | .ok r => r
  | .error _ => none

/-- The nested `_screen` coroutine of `screen_stocks` in src/screener.py:
split the symbols into batches of BATCH_SIZE and collect every batch's
results.  Batches are modelled in dispatch order; the code drains them in
completion order, which only permutes the pre-sort intermediate list and is
unobservable after the final explicit sort. -/
def screen_universe (fetch : String → Except String (Option ScreenedStock))
    (symbols : List String) : List ScreenedStock :=
  ((split_batches symbols BATCH_SIZE).map (fetch_batch fetch)).flatten

theorem fetch_batch_eq_filterMap
    (fetch : String → Except String (Option ScreenedStock)) :
    ∀ symbols, fetch_batch fetch symbols =
      symbols.filterMap (fetch_outcome fetch) := by
  intro symbols
  induction symbols with
  | nil => rfl
  | cons s rest ih =>
    simp only [fetch_batch, List.filterMap_cons, fetch_outcome]
    cases h : fetch s with
    | ok r => cases r <;> simp [ih]
    | error e => simp [ih]

theorem flatten_map_filterMap (f : String → Option ScreenedStock) :
    ∀ bs : List (List String),
      (bs.map (fun b => b.filterMap f)).flatten = bs.flatten.filterMap f := by
  intro bs
  induction bs with
  | nil => rfl
  | cons b bs ih =>
    simp only [List.map_cons, List.flatten_cons, List.filterMap_append, ih]

theorem screen_universe_eq_filterMap
    (fetch : String → Except String (Option ScreenedStock))
    (symbols : List String) :
    screen_universe fetch symbols = symbols.filterMap (fetch_outcome fetch) := by
  unfold screen_universe
  have h1 : (split_batches symbols BATCH_SIZE).map (fetch_batch fetch) =
      (split_batches symbols BATCH_SIZE).map
        (fun b => b.filterMap (fetch_outcome fetch)) := by
    simp [fetch_batch_eq_filterMap]
  rw [h1, flatten_map_filterMap]
  have h2 : (split_batches symbols BATCH_SIZE).flatten = symbols := by
    simpa using split_batches_go_flatten BATCH_SIZE symbols []
  rw [h2]

/-- C2: each symbol contributes to a batch's results independently of every
other symbol: an unrecoverable per-symbol fetch error is caught and only
excludes that symbol, both within its batch and across the whole batched
run, which equals the per-symbol filterMap of the surviving outcomes. -/
theorem fetch_error_containment
    (fetch : String → Except String (Option ScreenedStock))
    (symbols : List String) :
    fetch_batch fetch symbols = symbols.filterMap (fetch_outcome fetch) ∧
    screen_universe fetch symbols = symbols.filterMap (fetch_outcome fetch) :=
  ⟨fetch_batch_eq_filterMap fetch symbols,
   screen_universe_eq_filterMap fetch symbols⟩

/-- Sort key of the final ordering in src/screener.py line 314, Python
`(s.price or 0)`: an absent price compares as zero. -/
def sort_key (s : ScreenedStock) : ℚ := s.price.getD 0

/-- The ordering of the final `screened.sort(key=..., reverse=True)`:
descending by `sort_key`. -/
def price_desc (a b : ScreenedStock) : Prop := sort_key b ≤ sort_key a

instance : DecidableRel price_desc := fun a b =>
  inferInstanceAs (Decidable (sort_key b ≤ sort_key a))

instance : IsTotal ScreenedStock price_desc :=
  ⟨fun a b => le_total (sort_key b) (sort_key a)⟩

instance : IsTrans ScreenedStock price_desc :=
  ⟨fun _ _ _ h1 h2 => le_trans h2 h1⟩

/-- The final sort of src/screener.py: stable descending sort by price with
a missing price treated as zero (Python's list.sort is stable; insertion
sort is a stable sort realising the same result order). -/
def sort_by_price_desc (l : List ScreenedStock) : List ScreenedStock :=
  List.insertionSort price_desc l

/-- Python truthiness of the optional integer `limit` of screen_stocks:
`None` and `0` are falsy. -/
def limit_truthy : Option Nat → Bool
  | none => false
  | some n => n != 0

/-- Function `screen_stocks` of src/screener.py, with the provider outcome `fetch`
and the already-resolved universe `tickers` passed in explicitly.  The
RuntimeError raised on an empty universe is modelled as `Except.error`; the
final `asdict` conversion is a field-for-field copy and is left out of the
model.  The limit is a natural number, matching the CLI's non-negative
dry-run count. -/
def screen_stocks (fetch : String → Except String (Option ScreenedStock))
    (tickers : List String) (limit : Option Nat) :
    Except String (List ScreenedStock) :=
  if tickers.isEmpty then .error "Failed to load S&P 500 tickers."
  else
    let subset :=
      if limit_truthy limit then tickers.take (limit.getD 0) else tickers
    let screened := screen_universe fetch subset
    let screened2 :=
      if screened.isEmpty && limit_truthy limit then
        screen_universe fetch tickers
      else screened
    .ok (sort_by_price_desc screened2)

/-- C3: with a restricting limit whose subset screens to zero candidates,
screen_stocks re-runs the full unrestricted universe once and returns that
(sorted) result; zero candidates from the unrestricted universe come back
as an empty sequence, not as an error. -/
theorem screen_stocks_degenerate_retry
    (fetch : String → Except String (Option ScreenedStock))
    (tickers : List String) (n : Nat) (hn : n ≠ 0) (ht : tickers ≠ [])
    (hempty : screen_universe fetch (tickers.take n) = []) :
    screen_stocks fetch tickers (some n) =
      .ok (sort_by_price_desc (screen_universe fetch tickers)) ∧
    (screen_universe fetch tickers = [] →
      screen_stocks fetch tickers (some n) = .ok []) := by
  have hne : tickers.isEmpty = false := by simpa using ht
  have htr : limit_truthy (some n) = true := by simp [limit_truthy, hn]
  have hmain : screen_stocks fetch tickers (some n) =
      .ok (sort_by_price_desc (screen_universe fetch tickers)) := by
    unfold screen_stocks
    rw [hne, htr]
    simp only [Bool.false_eq_true, if_false, if_true, Option.getD_some]
    rw [hempty]
    simp
  refine ⟨hmain, fun hfull => ?_⟩
  rw [hmain, hfull]
  rfl

theorem screen_stocks_degenerate_retry_witness :
    screen_stocks (fun _ => .ok none) ["A"] (some 1) = .ok [] :=
  (screen_stocks_degenerate_retry (fun _ => .ok none) ["A"] 1
    (by decide) (by decide) rfl).2 rfl

/-- C10: calling screen_stocks with limit = 0 behaves exactly like calling
it with no limit: the full universe is screened (not an empty prefix) and
the degenerate-result retry never fires. -/
theorem screen_stocks_zero_limit
    (fetch : String → Except String (Option ScreenedStock))
    (tickers : List String) :
    screen_stocks fetch tickers (some 0) = screen_stocks fetch tickers none := by
  simp [screen_stocks, limit_truthy]

/-- Example stock passing every filter, price 50. -/
def stock_p50 : ScreenedStock :=
  ⟨"AAA", none, none, some 50, some 10, some 1, some 2, some 1, none, none⟩

/-- Example stock passing every filter, price 10. -/
def stock_p10 : ScreenedStock :=
  ⟨"BBB", none, none, some 10, some 10, some 1, some 2, some 1, none, none⟩

/-- Example stock passing every filter, price 100. -/
def stock_p100 : ScreenedStock :=
  ⟨"CCC", none, none, some 100, some 10, some 1, some 2, some 1, none, none⟩

/-- Example stock with an absent price. -/
def stock_noprice : ScreenedStock :=
  ⟨"DDD", none, none, none, some 10, some 1, some 2, some 1, none, none⟩

/-- C8: every successful screen_stocks result is sorted by price descending,
with an absent price compared as zero; three passing stocks with prices
[50, 10, 100] come out as [100, 50, 10], and an absent price sorts after a
positive one. -/
theorem screen_stocks_output_sorted
    (fetch : String → Except String (Option ScreenedStock))
    (tickers : List String) (limit : Option Nat) (l : List ScreenedStock)
    (h : screen_stocks fetch tickers limit = .ok l) :
    List.Sorted price_desc l ∧
    sort_by_price_desc [stock_p50, stock_p10, stock_p100] =
      [stock_p100, stock_p50, stock_p10] ∧
    sort_by_price_desc [stock_noprice, stock_p50] = [stock_p50, stock_noprice] := by
  refine ⟨?_, by decide, by decide⟩
  by_cases he : tickers.isEmpty
  · rw [screen_stocks, if_pos he] at h
    cases h
  · rw [screen_stocks, if_neg he] at h
    injection h with h2
    rw [← h2]
    exact List.sorted_insertionSort price_desc _

/-- Concrete fetch outcome used to witness the sort-order property. -/
def fetch_three : String → Except String (Option ScreenedStock) := fun s =>
  if s = "AAA" then .ok (some stock_p50)
  else if s = "BBB" then .ok (some stock_p10)
  else if s = "CCC" then .ok (some stock_p100)
  else .ok none

theorem screen_stocks_output_sorted_witness :
    List.Sorted price_desc [stock_p100, stock_p50, stock_p10] ∧
    sort_by_price_desc [stock_p50, stock_p10, stock_p100] =
      [stock_p100, stock_p50, stock_p10] ∧
    sort_by_price_desc [stock_noprice, stock_p50] = [stock_p50, stock_noprice] :=
  screen_stocks_output_sorted fetch_three ["AAA", "BBB", "CCC"] none
    [stock_p100, stock_p50, stock_p10] (by rfl)

/-- A provider balance-sheet frame restricted to the four line items that
src/screener.py reads.  A row is `none` when its label is absent (pandas
KeyError), otherwise the series of values with the most recent reporting
column first. -/
structure BalanceSheet where
  totalCurrentAssets : Option (List ℚ)
  totalCurrentLiabilities : Option (List ℚ)
  totalAssets : Option (List ℚ)
  totalDebt : Option (List ℚ)
deriving DecidableEq

/-- The `_get_value` helper of `_compute_current_ratio` in src/screener.py:
`None` for an absent label or an empty series, else the most recent value
(`.iloc[0]`, the head of the series). -/
def get_value (row : Option (List ℚ)) : Option ℚ :=
  row.bind List.head?

/-- Function `_compute_current_ratio` of src/screener.py.  The sheet argument is
`none` when the provider returned no balance sheet or an empty one.  The
checks `if fallback:` and `if current_assets and current_liabilities:` are
Python truthiness, that is `truthyQ`; the inner `current_liabilities == 0`
guard is kept even though truthiness already excludes it. -/
def compute_current_ratio (sheet : Option BalanceSheet) (fallback : Option ℚ) :
    Option ℚ :=
  if truthyQ fallback then fallback
  else
    match sheet with
    | none => none
    | some sh =>
      match get_value sh.totalCurrentAssets,
          get_value sh.totalCurrentLiabilities with
      | some ca, some cl =>
        if ca ≠ 0 ∧ cl ≠ 0 then
          if cl = 0 then none else some (ca / cl)
        else none
      | _, _ => none

/-- C4: with no directly-supplied ratio, the current ratio is the most
recent current-assets value over the most recent current-liabilities value;
it is absent when either line item is missing — a zero-valued item counts as
missing, per the spec's convention that key-missing and key-present-but-empty
are treated identically — or when liabilities are zero; assets 150 and
liabilities 100 yield exactly 3/2. -/
theorem compute_current_ratio_spec (sh : BalanceSheet) :
    (∀ ca cl, get_value sh.totalCurrentAssets = some ca →
      get_value sh.totalCurrentLiabilities = some cl → ca ≠ 0 → cl ≠ 0 →
      compute_current_ratio (some sh) none = some (ca / cl)) ∧
    ((get_value sh.totalCurrentAssets = none ∨
      get_value sh.totalCurrentAssets = some 0 ∨
      get_value sh.totalCurrentLiabilities = none ∨
      get_value sh.totalCurrentLiabilities = some 0) →
      compute_current_ratio (some sh) none = none) ∧
    compute_current_ratio (some ⟨some [150], some [100], none, none⟩) none =
      some (3 / 2) := by
  refine ⟨?_, ?_, by norm_num [compute_current_ratio, truthyQ, get_value]⟩
  · intro ca cl hca hcl hca0 hcl0
    simp [compute_current_ratio, truthyQ, hca, hcl, hca0, hcl0]
  · intro hcase
    rcases hcase with h | h | h | h
    · cases hcl : get_value sh.totalCurrentLiabilities <;>
        simp [compute_current_ratio, truthyQ, h, hcl]
    · cases hcl : get_value sh.totalCurrentLiabilities <;>
        simp [compute_current_ratio, truthyQ, h, hcl]
    · cases hca : get_value sh.totalCurrentAssets <;>
        simp [compute_current_ratio, truthyQ, h, hca]
    · cases hca : get_value sh.totalCurrentAssets <;>
        simp [compute_current_ratio, truthyQ, h, hca]

theorem compute_current_ratio_spec_witness :
    compute_current_ratio (some ⟨some [150, 120], some [100, 90], none, none⟩)
        none = some ((150 : ℚ) / 100) ∧
    compute_current_ratio (some ⟨some [150], some [0], none, none⟩) none =
      none :=
  ⟨(compute_current_ratio_spec ⟨some [150, 120], some [100, 90], none, none⟩).1
      150 100 rfl rfl (by decide) (by decide),
   (compute_current_ratio_spec ⟨some [150], some [0], none, none⟩).2.1
      (Or.inr (Or.inr (Or.inr rfl)))⟩

/-- The provider "info" record of src/screener.py, restricted to the fields
that `_compute_debt_to_assets` reads; both are optional. -/
structure Info where
  totalDebt : Option ℚ
  totalAssets : Option ℚ
deriving DecidableEq

/-- Function `_compute_debt_to_assets` of src/screener.py.  `if not total_assets:`
and `if not total_debt:` are Python truthiness; each balance-sheet fallback
reads the most recent value of its line item and becomes `None` on a
KeyError or IndexError; when the sheet is missing or empty the variable
keeps its info-record value.  The final guard rejects a `None` debt and a
`None` or zero assets value. -/
def compute_debt_to_assets (info : Info) (sheet : Option BalanceSheet) :
    Option ℚ :=
  let total_debt := info.totalDebt
  let total_assets := info.totalAssets
  let total_assets2 :=
    if truthyQ total_assets then total_assets
    else
      match sheet with
      | some sh => get_value sh.totalAssets
      | none => total_assets
  let total_debt2 :=
    if truthyQ total_debt then total_debt
    else
      match sheet with
      | some sh => get_value sh.totalDebt
      | none => total_debt
  match total_debt2, total_assets2 with
  | some d, some a => if a = 0 then none else some (d / a)
  | _, _ => none

/-- Operand resolution as the spec words it: take the info-record value when
present there (non-empty, per the spec's key-missing = key-empty
convention), otherwise fall back to the most recent balance-sheet line
item. -/
def info_first (infoVal : Option ℚ) (row : Option (List ℚ)) : Option ℚ :=
  if truthyQ infoVal then infoVal else get_value row

/-- The debt-to-assets derivation as the spec words it: resolved total debt
over resolved total assets, absent when the debt operand is unavailable or
the assets operand is unavailable or resolves to zero. -/
def spec_debt_to_assets (info : Info) (sh : BalanceSheet) : Option ℚ :=
  match info_first info.totalDebt sh.totalDebt,
      info_first info.totalAssets sh.totalAssets with
  | some d, some a => if a = 0 then none else some (d / a)
  | _, _ => none

/-- C5: the code's debt-to-assets computation coincides with the spec's
description — each operand taken from the info record when present there
and otherwise from the most recent balance-sheet line item — and the result
is absent when total debt is unavailable or total assets resolve to zero,
and is the quotient otherwise. -/
theorem compute_debt_to_assets_spec (info : Info) (sh : BalanceSheet) :
    compute_debt_to_assets info (some sh) = spec_debt_to_assets info sh ∧
    (info_first info.totalDebt sh.totalDebt = none →
      compute_debt_to_assets info (some sh) = none) ∧
    (info_first info.totalAssets sh.totalAssets = some 0 →
      compute_debt_to_assets info (some sh) = none) ∧
    (∀ d a, info_first info.totalDebt sh.totalDebt = some d →
      info_first info.totalAssets sh.totalAssets = some a → a ≠ 0 →
      compute_debt_to_assets info (some sh) = some (d / a)) := by
  refine ⟨rfl, ?_, ?_, ?_⟩
  · intro h
    show spec_debt_to_assets info sh = none
    unfold spec_debt_to_assets
    rw [h]
  · intro h
    show spec_debt_to_assets info sh = none
    unfold spec_debt_to_assets
    rw [h]
    cases hd : info_first info.totalDebt sh.totalDebt <;> simp
  · intro d a hd ha ha0
    show spec_debt_to_assets info sh = some (d / a)
    unfold spec_debt_to_assets
    rw [hd, ha]
    simp [ha0]

theorem compute_debt_to_assets_spec_witness :
    compute_debt_to_assets ⟨some 3, none⟩ (some ⟨none, none, some [12], none⟩) =
      some ((3 : ℚ) / 12) ∧
    compute_debt_to_assets ⟨none, some 5⟩ (some ⟨none, none, none, none⟩) =
      none :=
  ⟨(compute_debt_to_assets_spec ⟨some 3, none⟩ ⟨none, none, some [12], none⟩).2.2.2
      3 12 rfl rfl (by decide),
   (compute_debt_to_assets_spec ⟨none, some 5⟩ ⟨none, none, none, none⟩).2.1 rfl⟩

/-- Python str.upper() modelled character-wise (the core String.toUpper is
not kernel-evaluable, so the character list is mapped directly). -/
def str_upper (s : String) : String :=
  ⟨s.data.map Char.toUpper⟩

/-- Python str.strip() modelled on the character list: drop leading and
trailing whitespace. -/
def str_strip (s : String) : String :=
  ⟨((s.data.dropWhile Char.isWhitespace).reverse.dropWhile
      Char.isWhitespace).reverse⟩

/-- Function `_load_tickers_from_datahub` of src/screener.py, with the parsed CSV
rows passed in: each entry is the row's "Symbol" cell, `none` when the
column is absent.  A falsy (empty) cell is skipped; any other cell is
stripped then upper-cased. -/
def load_tickers_from_datahub : List (Option String) → List String
  | [] => []
  | row :: rest =>
    match row with
    | some symbol =>
      if symbol ≠ "" then
        str_upper (str_strip symbol) :: load_tickers_from_datahub rest
      else load_tickers_from_datahub rest
    | none => load_tickers_from_datahub rest

/-- Function `_load_sp500_tickers` of src/screener.py, with the outcome of the
primary (Wikipedia HTML) source passed in as `wiki`: the symbols it
yielded, empty when the page was unreachable or the constituents table was
missing or had no data rows. -/
def load_sp500_tickers (wiki : List String)
    (datahub_rows : List (Option String)) : List String :=
  if wiki ≠ [] then wiki else load_tickers_from_datahub datahub_rows

/-- C6: the resolver returns the primary source's symbols when it yielded
at least one, otherwise the CSV feed's "Symbol" column upper-cased and
trimmed; when both sources yield nothing it returns the empty sequence, and
screen_stocks treats an empty universe as fatal by raising instead of
proceeding. -/
theorem load_sp500_tickers_spec (wiki : List String)
    (rows : List (Option String))
    (fetch : String → Except String (Option ScreenedStock))
    (limit : Option Nat) :
    (wiki ≠ [] → load_sp500_tickers wiki rows = wiki) ∧
    (wiki = [] → load_sp500_tickers wiki rows = load_tickers_from_datahub rows) ∧
    (load_tickers_from_datahub rows =
      rows.filterMap (fun r => r.bind (fun s =>
        if s = "" then none else some (str_upper (str_strip s))))) ∧
    (wiki = [] → load_tickers_from_datahub rows = [] →
      load_sp500_tickers wiki rows = []) ∧
    screen_stocks fetch [] limit = .error "Failed to load S&P 500 tickers." := by
  refine ⟨?_, ?_, ?_, ?_, rfl⟩
  · intro h
    simp [load_sp500_tickers, h]
  · intro h
    simp [load_sp500_tickers, h]
  · induction rows with
    | nil => rfl
    | cons r rest ih =>
      cases r with
      | none => simpa [load_tickers_from_datahub] using ih
      | some s =>
        by_cases hs : s = "" <;>
          simp [load_tickers_from_datahub, hs, ih]
  · intro h1 h2
    simp [load_sp500_tickers, h1, h2]

theorem load_sp500_tickers_spec_witness :
    load_sp500_tickers [] [some " aapl", none, some ""] = ["AAPL"] ∧
    load_sp500_tickers ["MMM"] [some "x"] = ["MMM"] := by
  refine ⟨?_, ?_⟩
  · exact ((load_sp500_tickers_spec [] [some " aapl", none, some ""]
      (fun _ => .ok none) none).2.1 rfl).trans (by rfl)
  · exact (load_sp500_tickers_spec ["MMM"] [some "x"]
      (fun _ => .ok none) none).1 (by simp)

/-- One successful TradingView analysis: the summary and indicator fields
that `_fetch_from_tradingview` of src/technicals.py extracts, all
optional. -/
structure TechData where
  rating : Option String
  oscillators : Option String
  moving_averages : Option String
  rsi : Option ℚ
  ema20 : Option ℚ
  ema50 : Option ℚ
  macd : Option ℚ
deriving DecidableEq

/-- The snapshot dict that `_fetch_from_tradingview` returns: the requested
symbol under the "ticker" key plus the extracted analysis fields. -/
structure TechSnapshot where
  ticker : String
  data : TechData
deriving DecidableEq

/-- The prioritized exchange venues of src/technicals.py. -/
def EXCHANGES : List String := ["NASDAQ", "NYSE", "AMEX"]

/-- Function `_fetch_from_tradingview` of src/technicals.py: try the venues in
order, `getAnalysis exchange symbol` being `none` when the provider raised
for that venue; the first success is returned with the requested symbol as
its ticker, and `none` models total failure (every venue raised; the symbol
is only logged). -/
def fetch_from_tradingview (getAnalysis : String → String → Option TechData)
    (symbol : String) : Option TechSnapshot :=
  (EXCHANGES.findSome? (fun exchange => getAnalysis exchange symbol)).map
    (fun d => ⟨symbol, d⟩)

/-- An input record of enrich_with_technicals: a plain key-value record
carrying at least a "ticker" field; its remaining fields are abstracted as
the payload `rest`. -/
structure FundRecord (α : Type) where
  ticker : String
  rest : α
deriving DecidableEq

/-- An output record of enrich_with_technicals: the input record plus the
single new `technicals` field; `none` models the empty mapping assigned on
a lookup miss. -/
structure EnrichedRecord (α : Type) where
  ticker : String
  rest : α
  technicals : Option TechSnapshot
deriving DecidableEq

/-- The ticker-to-snapshot dict of enrich_with_technicals, as a lookup
function: successful results are inserted in fetch order keyed by the
snapshot's own ticker, later insertions overwriting earlier ones; failed
fetches (the exception results filtered out by the isinstance check) insert
nothing. -/
def technical_map : List (Option TechSnapshot) → String → Option TechSnapshot
  | [], _ => none
  | r :: rest, t =>
    match technical_map rest t with
    | some snap => some snap
    | none =>
      match r with
      | some snap => if snap.ticker = t then some snap else none
      | none => none

/-- Function `enrich_with_technicals` of src/technicals.py with the provider passed
in.  The per-symbol fetches are dispatched concurrently but gathered in
full before the map is built and the fetch outcome per symbol is a pure
function of the symbol, so the model fetches in list order. -/
def enrich_with_technicals {α : Type}
    (getAnalysis : String → String → Option TechData)
    (fundamentals : List (FundRecord α)) : List (EnrichedRecord α) :=
  let symbols := fundamentals.map (fun item => item.ticker)
  let tech_results := symbols.map (fetch_from_tradingview getAnalysis)
  fundamentals.map (fun stock =>
    ⟨stock.ticker, stock.rest, technical_map tech_results stock.ticker⟩)

theorem fetch_from_tradingview_ticker (g : String → String → Option TechData)
    (s : String) (snap : TechSnapshot)
    (h : fetch_from_tradingview g s = some snap) : snap.ticker = s := by
  unfold fetch_from_tradingview at h
  cases hf : EXCHANGES.findSome? (fun exchange => g exchange s) with
  | none => rw [hf] at h; cases h
  | some d =>
    rw [hf] at h
    injection h with h2
    rw [← h2]

theorem technical_map_not_mem (g : String → String → Option TechData)
    (t : String) :
    ∀ symbols : List String, t ∉ symbols →
      technical_map (symbols.map (fetch_from_tradingview g)) t = none := by
  intro symbols
  induction symbols with
  | nil => intro _; rfl
  | cons s rest ih =>
    intro hmem
    have hts : t ≠ s := fun he => hmem (he ▸ List.mem_cons_self s rest)
    have htr : t ∉ rest := fun hr => hmem (List.mem_cons_of_mem s hr)
    simp only [List.map_cons, technical_map, ih htr]
    cases hf : fetch_from_tradingview g s with
    | none => rfl
    | some snap =>
      have hsnap := fetch_from_tradingview_ticker g s snap hf
      show (if snap.ticker = t then some snap else none) = none
      rw [hsnap, if_neg (Ne.symm hts)]

theorem technical_map_lookup (g : String → String → Option TechData)
    (t : String) :
    ∀ symbols : List String, t ∈ symbols →
      technical_map (symbols.map (fetch_from_tradingview g)) t =
        fetch_from_tradingview g t := by
  intro symbols
  induction symbols with
  | nil => intro h; cases h
  | cons s rest ih =>
    intro hmem
    simp only [List.map_cons, technical_map]
    by_cases htr : t ∈ rest
    · rw [ih htr]
      cases hft : fetch_from_tradingview g t with
      | some snap => rfl
      | none =>
        cases hfs : fetch_from_tradingview g s with
        | none => rfl
        | some snap =>
          have hsnap := fetch_from_tradingview_ticker g s snap hfs
          show (if snap.ticker = t then some snap else none) = none
          rw [hsnap]
          by_cases hst : s = t
          · subst hst
            rw [hfs] at hft
            cases hft
          · rw [if_neg hst]
    · have hts : t = s := by
        rcases List.mem_cons.mp hmem with h | h
        · exact h
        · exact absurd h htr
      subst hts
      rw [technical_map_not_mem g t rest htr]
      cases hft : fetch_from_tradingview g t with
      | none => rfl
      | some snap =>
        have hsnap := fetch_from_tradingview_ticker g t snap hft
        show (if snap.ticker = t then some snap else none) = some snap
        rw [hsnap, if_pos rfl]

/-- C9: enrich_with_technicals maps each input record to a copy augmented
with exactly one new field, `technicals`, holding the snapshot fetched for
its ticker or the empty mapping (`none`) when every venue failed; ticker
and payload are unchanged, and a symbol with no technical data still
produces its output record rather than aborting. -/
theorem enrich_with_technicals_spec {α : Type}
    (getAnalysis : String → String → Option TechData)
    (fundamentals : List (FundRecord α)) :
    enrich_with_technicals getAnalysis fundamentals =
      fundamentals.map (fun r =>
        ⟨r.ticker, r.rest, fetch_from_tradingview getAnalysis r.ticker⟩) ∧
    enrich_with_technicals (fun _ _ => none) [(⟨"AAA", 0⟩ : FundRecord Nat)] =
      [⟨"AAA", 0, none⟩] := by
  constructor
  · unfold enrich_with_technicals
    apply List.map_congr_left
    intro r hr
    have hmem : r.ticker ∈ fundamentals.map (fun item => item.ticker) :=
      List.mem_map_of_mem _ hr
    rw [technical_map_lookup getAnalysis r.ticker _ hmem]
  · rfl

end MarketScreener
